import Mathlib

/-!
Verification development for the record-viewer engine in `src/main.py`
(an Avro container viewer): value normalisation (`_json_safe`,
`record_to_row`), paging (`_read_page`), search (`run_search` worker and
`_match`), boundary validation (`apply_page_size`, `run_search`), stale
search-result dropping (`add_batch`), and schema field-name projection
(`load_avro`, `_render_records`).

Decoded Avro values are modelled by the closed variant type `Value`
(null, bool, int, string, bytes, map, list); Python floats are outside
the shallow embedding.  Bytes are `List (Fin 256)`.  Records are
association lists in decoding order, mirroring Python dicts (insertion
ordered, unique keys).
-/

namespace AvroViewer

/-- A decoded field value, mirroring the shapes produced by the Avro
decoder and inspected by `_json_safe` / `record_to_row` / `_match`. -/
inductive Value where
  | vNull
  | vBool (b : Bool)
  | vInt (n : Int)
  | vStr (s : String)
  | vBytes (bs : List (Fin 256))
  | vList (items : List Value)
  | vMap (entries : List (String × Value))

/-- One decoded record: field name to value, in decoding order. -/
abbrev Record := List (String × Value)

/-- A JSON-representable tree: the codomain of `_json_safe`. -/
inductive JValue where
  | jNull
  | jBool (b : Bool)
  | jInt (n : Int)
  | jStr (s : String)
  | jArr (items : List JValue)
  | jObj (entries : List (String × JValue))

/-- Python `dict.get` on an association list (keys unique): first binding
of the key, if any. -/
def lookupKV (k : String) : List (String × Value) → Option Value
  | [] => none
  | (k2, v) :: rest => if k2 = k then some v else lookupKV k rest

/-! ### Base64 (model of `base64.b64encode` / `base64.b64decode`) -/

/-- The standard base64 alphabet. -/
def b64Table : List Char :=
  ("ABCDEFGHIJKLMNOPQRSTUVWXYZabcdefghijklmnopqrstuvwxyz0123456789+/").data

/-- The base64 character of a 6-bit group. -/
def encChar (n : Nat) : Char := b64Table.getD n '?'

/-- Index of a character in the base64 alphabet (decoder side). -/
def decCharAux (c : Char) : List Char → Nat
  | [] => 0
  | d :: ds => if d = c then 0 else decCharAux c ds + 1

/-- The 6-bit group of a base64 character. -/
def decChar (c : Char) : Nat := decCharAux c b64Table

/-- `base64.b64encode`: 3 bytes become 4 characters; a final chunk of 1 or
2 bytes is padded with `=`. -/
def b64encode : List (Fin 256) → List Char
  | [] => []
  | [a] => [encChar (a.val / 4), encChar (a.val % 4 * 16), '=', '=']
  | [a, b] => [encChar (a.val / 4), encChar (a.val % 4 * 16 + b.val / 16),
      encChar (b.val % 16 * 4), '=']
  | a :: b :: c :: rest =>
      encChar (a.val / 4) :: encChar (a.val % 4 * 16 + b.val / 16) ::
        encChar (b.val % 16 * 4 + c.val / 64) :: encChar (c.val % 64) :: b64encode rest

/-- `base64.b64decode` on well-formed input: each 4-character chunk yields
3 bytes, or 1 or 2 bytes when padded with `=`. -/
def b64decode : List Char → List Nat
  | c1 :: c2 :: c3 :: c4 :: rest =>
      if c3 = '=' then [decChar c1 * 4 + decChar c2 / 16]
      else if c4 = '=' then
        [decChar c1 * 4 + decChar c2 / 16, decChar c2 % 16 * 16 + decChar c3 / 4]
      else
        (decChar c1 * 4 + decChar c2 / 16) :: (decChar c2 % 16 * 16 + decChar c3 / 4) ::
          (decChar c3 % 4 * 64 + decChar c4) :: b64decode rest
  | _ => []

/-! ### Python string forms (model of `str()` / `repr()` on decoded values) -/

/-- Lower-case hexadecimal digit. -/
def hexDigit (n : Nat) : Char := (("0123456789abcdef").data).getD n '0'

/-- Two lower-case hexadecimal digits. -/
def hex2 (n : Nat) : List Char := [hexDigit (n / 16 % 16), hexDigit (n % 16)]

/-- ASCII apostrophe. -/
def quoteChar : Char := Char.ofNat 39

/-- Escaping of one character inside a Python string repr (model of
CPython repr: backslash, quote and control characters escaped). -/
def reprEscChar (c : Char) : List Char :=
  if c = '\\' then ['\\', '\\']
  else if c = quoteChar then ['\\', quoteChar]
  else if c = '\n' then ['\\', 'n']
  else if c = '\r' then ['\\', 'r']
  else if c = '\t' then ['\\', 't']
  else if c.toNat < 32 then '\\' :: 'x' :: hex2 c.toNat
  else [c]

/-- Model of CPython `repr` of a string: quoted and escaped. -/
def strRepr (s : String) : String :=
  String.mk (quoteChar :: s.data.foldr (fun c acc => reprEscChar c ++ acc) [quoteChar])

/-- Escaping of one byte inside a Python bytes repr. -/
def byteEsc (b : Fin 256) : List Char :=
  if b.val = 92 then ['\\', '\\']
  else if b.val = 39 then ['\\', quoteChar]
  else if b.val = 9 then ['\\', 't']
  else if b.val = 10 then ['\\', 'n']
  else if b.val = 13 then ['\\', 'r']
  else if 32 ≤ b.val ∧ b.val ≤ 126 then [Char.ofNat b.val]
  else '\\' :: 'x' :: hex2 b.val

/-- Model of CPython `repr` of a bytes object. -/
def bytesRepr (bs : List (Fin 256)) : String :=
  String.mk ('b' :: quoteChar :: bs.foldr (fun b acc => byteEsc b ++ acc) [quoteChar])

mutual
/-- Model of CPython `repr` on decoded values (used by `str` on
containers). -/
def pyRepr : Value → String
  | .vNull => "None"
  | .vBool true => "True"
  | .vBool false => "False"
  | .vInt n => toString n
  | .vStr s => strRepr s
  | .vBytes bs => bytesRepr bs
  | .vList items => "[" ++ String.intercalate (", ") (pyReprList items) ++ "]"
  | .vMap entries => "\x7b" ++ String.intercalate (", ") (pyReprEntries entries) ++ "\x7d"

/-- `repr` of each element of a list value. -/
def pyReprList : List Value → List String
  | [] => []
  | v :: vs => pyRepr v :: pyReprList vs

/-- `repr` of each `key: value` entry of a dict value. -/
def pyReprEntries : List (String × Value) → List String
  | [] => []
  | (k, v) :: rest => (strRepr k ++ ": " ++ pyRepr v) :: pyReprEntries rest
end

/-- Model of CPython `str()` on decoded values: identity on strings,
`repr` otherwise. -/
def pyStr : Value → String
  | .vStr s => s
  | v => pyRepr v

/-! ### `_json_safe` (src/main.py lines 13-25) -/

mutual
/-- `_json_safe`: primitives pass through; bytes become the tagged object
`{"__bytes_b64__": <base64>}`; dicts and lists recurse (dict keys are
already strings, so `str(k)` is the identity).  The `str(v)` fallback of
line 25 is unreachable on the closed `Value` type. -/
def json_safe : Value → JValue
  | .vNull => .jNull
  | .vBool b => .jBool b
  | .vInt n => .jInt n
  | .vStr s => .jStr s
  | .vBytes bs => .jObj [("__bytes_b64__", .jStr (String.mk (b64encode bs)))]
  | .vMap entries => .jObj (jsonSafeEntries entries)
  | .vList items => .jArr (jsonSafeList items)

/-- `_json_safe` mapped over list elements. -/
def jsonSafeList : List Value → List JValue
  | [] => []
  | v :: vs => json_safe v :: jsonSafeList vs

/-- `_json_safe` mapped over dict entries. -/
def jsonSafeEntries : List (String × Value) → List (String × JValue)
  | [] => []
  | (k, v) :: rest => (k, json_safe v) :: jsonSafeEntries rest
end

/-! ### Compact JSON text (model of `json.dumps(..., ensure_ascii=False)`) -/

/-- Escaping of one character inside a JSON string literal
(Python `json.dumps` with `ensure_ascii=False`). -/
def jsonEscChar (c : Char) : List Char :=
  if c = '"' then ['\\', '"']
  else if c = '\\' then ['\\', '\\']
  else if c = '\n' then ['\\', 'n']
  else if c = '\t' then ['\\', 't']
  else if c = '\r' then ['\\', 'r']
  else if c.toNat = 8 then ['\\', 'b']
  else if c.toNat = 12 then ['\\', 'f']
  else if c.toNat < 32 then '\\' :: 'u' :: '0' :: '0' :: hex2 c.toNat
  else [c]

/-- JSON string literal form. -/
def jsonStrLit (s : String) : String :=
  String.mk ('"' :: s.data.foldr (fun c acc => jsonEscChar c ++ acc) ['"'])

mutual
/-- Compact JSON text of a JSON-safe tree, with the Python default
separators `", "` and `": "`. -/
def jsonDumps : JValue → String
  | .jNull => "null"
  | .jBool true => "true"
  | .jBool false => "false"
  | .jInt n => toString n
  | .jStr s => jsonStrLit s
  | .jArr items => "[" ++ String.intercalate (", ") (jsonDumpsList items) ++ "]"
  | .jObj entries => "\x7b" ++ String.intercalate (", ") (jsonDumpsEntries entries) ++ "\x7d"

/-- `jsonDumps` mapped over array elements. -/
def jsonDumpsList : List JValue → List String
  | [] => []
  | v :: vs => jsonDumps v :: jsonDumpsList vs

/-- `jsonDumps` mapped over object entries. -/
def jsonDumpsEntries : List (String × JValue) → List String
  | [] => []
  | (k, v) :: rest => (jsonStrLit k ++ ": " ++ jsonDumps v) :: jsonDumpsEntries rest
end

/-! ### `record_to_row` (src/main.py lines 28-44) -/

/-- The `cell` helper of `record_to_row`: None shows as the empty string,
primitives as `str(v)`, bytes as a truncated base64 preview, nested
structures as compact JSON of `_json_safe`.  The `except` fallback of
line 42 is unreachable: `jsonDumps` is total on `_json_safe` output. -/
def cell : Value → String
  | .vNull => ""
  | .vBool b => pyStr (.vBool b)
  | .vInt n => pyStr (.vInt n)
  | .vStr s => pyStr (.vStr s)
  | .vBytes bs => "<bytes b64:" ++ String.mk ((b64encode bs).take 24) ++ "...>"
  | .vMap entries => jsonDumps (json_safe (.vMap entries))
  | .vList items => jsonDumps (json_safe (.vList items))

/-- `record_to_row`: one display cell per field name, in field order;
a missing key reads as `None` (Python `record.get(f)`). -/
def record_to_row (record : Record) (field_names : List String) : List String :=
  field_names.map (fun f => cell ((lookupKV f record).getD .vNull))

/-! ### Python `int()` and `str.strip()` (boundary input parsing) -/

/-- ASCII whitespace stripped by Python `str.strip()`. -/
def isPySpace (c : Char) : Bool :=
  c = ' ' || c = '\t' || c = '\n' || c = '\r' || c = Char.ofNat 11 || c = Char.ofNat 12

/-- Model of Python `str.strip()` (ASCII whitespace). -/
def pyStrip (s : String) : String :=
  String.mk (((s.data.dropWhile isPySpace).reverse.dropWhile isPySpace).reverse)

/-- Digit run of a Python integer literal after the first digit: decimal
digits, single underscores allowed between digits. -/
def parseDigitsAux : List Char → Nat → Option Nat
  | [], acc => some acc
  | '_' :: c :: cs, acc =>
      if c.isDigit then parseDigitsAux cs (acc * 10 + (c.toNat - 48)) else none
  | c :: cs, acc =>
      if c.isDigit then parseDigitsAux cs (acc * 10 + (c.toNat - 48)) else none

/-- Digit run of a Python integer literal: at least one digit, no leading
underscore. -/
def parseDigits : List Char → Option Nat
  | [] => none
  | c :: cs => if c.isDigit then parseDigitsAux cs (c.toNat - 48) else none

/-- Model of Python `int(s)` on decimal input: surrounding whitespace
stripped, optional sign, digits with optional single underscores;
`none` when `int()` would raise `ValueError`. -/
def parsePyInt (s : String) : Option Int :=
  match (pyStrip s).data with
  | '+' :: rest => (parseDigits rest).map Int.ofNat
  | '-' :: rest => (parseDigits rest).map (fun n => -(n : Int))
  | rest => (parseDigits rest).map Int.ofNat

/-! ### Session state (`AvroState`, src/main.py lines 47-54) -/

/-- The mutable session context of one open container.  File identity is
the path (a string); UI-only fields are omitted. -/
structure AvroState where
  file_path : Option String := none
  schema : Option Value := none
  field_names : List String := []
  page_size : Int := 50
  page_index : Nat := 0
  current_records : List Record := []

/-! ### Schema field-name projection (`load_avro` lines 195-200,
`_render_records` lines 276-283) -/

/-- The name accepted from one member of the schema `"fields"` list:
the member must be a dict whose `"name"` is truthy (fastavro field names
are strings, so truthy means non-empty). -/
def fieldNameOf : Value → Option String
  | .vMap fe =>
      match lookupKV ("name") fe with
      | some (.vStr s) => if s = "" then none else some s
      | _ => none
  | _ => none

/-- `load_avro` lines 195-200: the projected field names.  A dict schema
whose `"fields"` is a list contributes the names of its well-formed
members in declared order; any other schema projects the empty list. -/
def field_names_of_schema (schema : Value) : List String :=
  match schema with
  | .vMap es =>
      match lookupKV ("fields") es with
      | some (.vList fs) => fs.filterMap fieldNameOf
      | _ => []
  | _ => []

/-- All keys of all records, in record order (the iteration underlying
the set comprehension of line 281). -/
def allKeys : List Record → List String
  | [] => []
  | r :: rs => r.map Prod.fst ++ allKeys rs

/-- `_render_records` line 281: fallback field names once records exist,
`sorted({k for r in records for k in r.keys()})` — the sorted
deduplicated union of all keys. -/
def field_names_from_records (records : List Record) : List String :=
  List.insertionSort (fun a b => a ≤ b) (allKeys records).dedup

/-- `load_avro` lines 202-206: on a successful open the session is
replaced — new path and schema, projected field names, page index 0 and
an empty materialized record set. -/
def load_avro (st : AvroState) (path : String) (schema : Value) : AvroState :=
  { st with
      file_path := some path
      schema := some schema
      field_names := field_names_of_schema schema
      page_index := 0
      current_records := [] }

/-! ### Validation (`apply_page_size` lines 173-184, `run_search`
lines 305-324) -/

/-- `apply_page_size`: parse the entry text with `int`; out-of-range or
unparsable input shows an error and leaves the state untouched
(`false`); otherwise the page size is applied and the page index reset
(`true`). -/
def apply_page_size (st : AvroState) (input : String) : AvroState × Bool :=
  match parsePyInt input with
  | none => (st, false)
  | some ps =>
      if ps < 1 ∨ 5000 < ps then (st, false)
      else ({ st with page_size := ps, page_index := 0 }, true)

/-- The immutable snapshot a search takes at request time
(`run_search` lines 333-337). -/
structure SearchRequest where
  path : String
  fields : List String
  query : String
  field_name : Option String
  max_results : Int

/-- The validation phase of `run_search` (lines 305-331), up to starting
the worker: no open file, an empty query, or an unparsable or
out-of-range max-results all reject the request with no state change;
otherwise the record set is cleared and a snapshot request is issued. -/
def run_search_validate (st : AvroState) (queryInput fieldInput maxInput : String) :
    AvroState × Option SearchRequest :=
  match st.file_path with
  | none => (st, none)
  | some path =>
      let query := pyStrip queryInput
      if query = "" then (st, none)
      else
        let field_name := if fieldInput = "(all)" then none else some fieldInput
        match parsePyInt maxInput with
        | none => (st, none)
        | some m =>
            if m < 1 ∨ 200000 < m then (st, none)
            else ({ st with current_records := [] },
                  some { path := path, fields := st.field_names, query := query,
                         field_name := field_name, max_results := m })

/-! ### `add_batch` (src/main.py lines 344-375) -/

/-- `add_batch`: runs on the main thread; a batch whose originating file
identity differs from that of the live session is silently dropped before any
mutation, otherwise its records are appended to the materialized set.
Treeview rows, counters and labels are UI-only and omitted. -/
def add_batch (st : AvroState) (search_path : String) (batch_records : List Record) :
    AvroState :=
  if st.file_path ≠ some search_path then st
  else { st with current_records := st.current_records ++ batch_records }

/-! ### `_match` (src/main.py lines 415-433) -/

/-- A value as seen by `_match` at the public interface: a decoded
`Value`, or an arbitrary foreign object whose `str()` either returns a
string or raises (`none`). -/
inductive PyObj where
  | known (v : Value)
  | foreign (strResult : Option String)

/-- A record of arbitrary objects. -/
abbrev ObjRecord := List (String × PyObj)

/-- Python `str()` on a `PyObj`, as a fallible computation. -/
def pyStrE : PyObj → Except Unit String
  | .known v => .ok (pyStr v)
  | .foreign (some s) => .ok s
  | .foreign none => .error ()

/-- Whether `str()` succeeds on an object. -/
def strOk (v : PyObj) : Bool :=
  match pyStrE v with
  | .ok _ => true
  | .error _ => false

/-- `dict.get` on an object record. -/
def lookupObj (k : String) : ObjRecord → Option PyObj
  | [] => none
  | (k2, v) :: rest => if k2 = k then some v else lookupObj k rest

/-- Model of Python `str.lower()` on decoded text: each character
lowered (ASCII case map), as a character list. -/
def lowerChars (s : String) : List Char := s.data.map Char.toLower

/-- Whether one character list occurs as a prefix of another
(decidable form of `<+:`). -/
def charsPref : List Char → List Char → Bool
  | [], _ => true
  | _ :: _, [] => false
  | a :: as, b :: bs => a = b && charsPref as bs

/-- Whether one character list occurs contiguously inside another:
the Python `in` on strings (decidable form of `<:+:`). -/
def charsSub (needle : List Char) : List Char → Bool
  | [] => charsPref needle []
  | b :: bs => charsPref needle (b :: bs) || charsSub needle bs

/-- The all-fields loop of `_match` (lines 418-426): skip `None` values,
treat a failing `str()` as a non-match (`except: continue`), and
short-circuit on the first lowered-substring hit. -/
def matchLoop (q : List Char) : List PyObj → Bool
  | [] => false
  | v :: vs =>
      match v with
      | .known .vNull => matchLoop q vs
      | v =>
          match pyStrE v with
          | .error _ => matchLoop q vs
          | .ok s => if charsSub q (lowerChars s) then true else matchLoop q vs

/-- `_match`: lower the query once; in all-fields mode scan the record
values, in named-field mode test the one looked-up value, where a
missing key or a `None` value never matches and a failing `str()` is a
non-match. -/
def _match (rec : ObjRecord) (field_name : Option String) (query : String) : Bool :=
  let q := lowerChars query
  match field_name with
  | none => matchLoop q (rec.map Prod.snd)
  | some f =>
      match lookupObj f rec with
      | none => false
      | some (.known .vNull) => false
      | some v =>
          match pyStrE v with
          | .error _ => false
          | .ok s => charsSub q (lowerChars s)

/-- `self._match` as called by the search worker, whose records hold
decoded values only. -/
def matchRec (rec : Record) (field_name : Option String) (query : String) : Bool :=
  _match (rec.map (fun kv => (kv.1, PyObj.known kv.2))) field_name query

/-! ### Paging (`_read_page`, src/main.py lines 237-257)

A record stream is modelled as the list of records that decode
successfully, together with a flag `err`: when `err` is true, pulling
the next record after the last decodable one raises a decode error
instead of ending the iteration normally. -/

/-- The collecting loop of `_read_page` inside its `try`: pull records,
break once the index reaches `stop`, collect from `start` on.  `.ok`
is a normal loop exit with the collected records; `.error` carries the
records collected when the stream raised (the local `records` list,
still in scope at the `except`). -/
def readPageTry (start stop : Nat) :
    List Record → Bool → Nat → List Record → Except (List Record) (List Record)
  | [], err, _, acc => if err then .error acc else .ok acc
  | r :: rs, err, i, acc =>
      if stop ≤ i then .ok acc
      else if start ≤ i then readPageTry start stop rs err (i + 1) (acc ++ [r])
      else readPageTry start stop rs err (i + 1) acc

/-- The records held in the local `records` list when the loop exits,
normally or through the `except`. -/
def pageOut : Except (List Record) (List Record) → List Record
  | .ok l => l
  | .error l => l

/-- `_read_page`: skip the first `page_index * page_size` records,
collect up to `page_size`; the `except Exception: pass` of line 255
keeps the partial page when the stream raises mid-scan. -/
def _read_page (recs : List Record) (err : Bool) (page_index page_size : Nat) :
    List Record :=
  let start := page_index * page_size
  match readPageTry start (start + page_size) recs err 0 [] with
  | .ok records => records
  | .error records => records

/-! ### Search worker (`run_search.worker`, src/main.py lines 377-413) -/

/-- One incremental result delivery: the newly matched records, the
running examined-count snapshot, and the completion flag. -/
structure Batch where
  records : List Record
  checked : Nat
  final : Bool

/-- The scan loop of `worker` (lines 385-399): for each record bump
`checked`; on a match append to the pending batch and bump `found`;
flush the batch as a non-final delivery once it reaches `BATCH_SIZE`
(50); break once `found` reaches `max_results`.  Returns the flushed
batches, the pending batch, the final `checked`, and whether the loop
broke at the cap (rather than exhausting the list). -/
def scanLoop (field_name : Option String) (query : String) (max_results : Nat) :
    List Record → Nat → Nat → List Record → List Batch × List Record × Nat × Bool
  | [], checked, _found, batch => ([], batch, checked, false)
  | r :: rs, checked, found, batch =>
      if matchRec r field_name query then
        let batch2 := batch ++ [r]
        if 50 ≤ batch2.length then
          if max_results ≤ found + 1 then
            ([⟨batch2, checked + 1, false⟩], [], checked + 1, true)
          else
            match scanLoop field_name query max_results rs (checked + 1) (found + 1) [] with
            | (bs, leftover, c, broke) => (⟨batch2, checked + 1, false⟩ :: bs, leftover, c, broke)
        else
          if max_results ≤ found + 1 then ([], batch2, checked + 1, true)
          else scanLoop field_name query max_results rs (checked + 1) (found + 1) batch2
      else scanLoop field_name query max_results rs (checked + 1) found batch

/-- `worker` end to end: run the scan loop from record 0; when the
stream raises a decode error before the loop breaks at the cap
(`err && !broke`), the `except` of lines 401-404 reports the failure
and returns — only the batches flushed inside the loop were delivered;
otherwise the remaining pending batch (if non-empty, line 407) and the
final empty batch with `final := true` (line 411) follow. -/
def run_search_worker (recs : List Record) (err : Bool) (field_name : Option String)
    (query : String) (max_results : Nat) : List Batch :=
  let out := scanLoop field_name query max_results recs 0 0 []
  if err && !out.2.2.2 then out.1
  else
    out.1 ++ (if out.2.1.isEmpty then [] else [⟨out.2.1, out.2.2.1, false⟩]) ++
      [⟨[], out.2.2.1, true⟩]

/-- Total number of matched records delivered across a list of batches. -/
def totalDelivered (bs : List Batch) : Nat :=
  (bs.map (fun b => b.records.length)).sum

/-- The number of records a scan capped at `k` matches examines: the
length of the shortest prefix containing `k` matches, or the whole
stream when it holds fewer. -/
def stopPoint (p : Record → Bool) : Nat → List Record → Nat
  | _, [] => 0
  | k, r :: rs =>
      if p r then (if k ≤ 1 then 1 else 1 + stopPoint p (k - 1) rs)
      else 1 + stopPoint p k rs

/-! ### Base64 round-trip -/

/-- Decoding inverts encoding on each 6-bit group. -/
theorem decChar_encChar : ∀ n : Fin 64, decChar (encChar n.val) = n.val := by decide

/-- Decoding inverts encoding, `Nat` form. -/
theorem decChar_encChar_nat (n : Nat) (h : n < 64) : decChar (encChar n) = n :=
  decChar_encChar ⟨n, h⟩

/-- No 6-bit group encodes to the padding character. -/
theorem encChar_ne_pad : ∀ n : Fin 64, encChar n.val ≠ '=' := by decide

/-- No 6-bit group encodes to the padding character, `Nat` form. -/
theorem encChar_ne_pad_nat (n : Nat) (h : n < 64) : encChar n ≠ '=' :=
  encChar_ne_pad ⟨n, h⟩

/-- Base64 round-trip: decoding the encoding of any byte list restores
it exactly. -/
theorem b64_decode_encode : ∀ bs : List (Fin 256), b64decode (b64encode bs) = bs.map Fin.val
  | [] => rfl
  | [a] => by
      have ha := a.isLt
      simp only [b64encode, b64decode, reduceIte]
      rw [decChar_encChar_nat (a.val / 4) (by omega),
        decChar_encChar_nat (a.val % 4 * 16) (by omega)]
      simp only [List.map, List.cons.injEq, and_true]
      omega
  | [a, b] => by
      have ha := a.isLt
      have hb := b.isLt
      simp only [b64encode, b64decode,
        if_neg (encChar_ne_pad_nat (b.val % 16 * 4) (by omega)), reduceIte]
      rw [decChar_encChar_nat (a.val / 4) (by omega),
        decChar_encChar_nat (a.val % 4 * 16 + b.val / 16) (by omega),
        decChar_encChar_nat (b.val % 16 * 4) (by omega)]
      simp only [List.map, List.cons.injEq, and_true]
      omega
  | a :: b :: c :: rest => by
      have ha := a.isLt
      have hb := b.isLt
      have hc := c.isLt
      simp only [b64encode, b64decode,
        if_neg (encChar_ne_pad_nat (b.val % 16 * 4 + c.val / 64) (by omega)),
        if_neg (encChar_ne_pad_nat (c.val % 64) (by omega))]
      rw [decChar_encChar_nat (a.val / 4) (by omega),
        decChar_encChar_nat (a.val % 4 * 16 + b.val / 16) (by omega),
        decChar_encChar_nat (b.val % 16 * 4 + c.val / 64) (by omega),
        decChar_encChar_nat (c.val % 64) (by omega),
        b64_decode_encode rest]
      simp only [List.map, List.cons.injEq, and_true]
      omega

/-- C7: for every byte string `b` (of any length `k ≥ 0`), the JSON-safe
form of the value `b` is the tagged object storing, under the
`"__bytes_b64__"` key, a base64 string that decodes back to exactly
`b`. -/
theorem bytes_b64_roundtrip_C7 (bs : List (Fin 256)) :
    json_safe (.vBytes bs) =
      .jObj [(("__bytes_b64__"), .jStr (String.mk (b64encode bs)))] ∧
    b64decode (String.mk (b64encode bs)).data = bs.map Fin.val :=
  ⟨rfl, b64_decode_encode bs⟩

/-- C8: the display-cell rendering maps null to the empty string, each
primitive to its literal string form, a bytes value to the marker
holding the first 24 characters of its base64 form suffixed with an
ellipsis, and a nested mapping or sequence to the compact JSON text of
its JSON-safe form; in particular the bytes `0x00 0x01 0xFF` render as
the cell `<bytes b64:AAH/...>` and as the JSON-safe object
`{"__bytes_b64__": "AAH/"}`. -/
theorem display_cell_C8 :
    (cell .vNull = "") ∧
    (∀ b, cell (.vBool b) = pyStr (.vBool b)) ∧
    (∀ n : Int, cell (.vInt n) = pyStr (.vInt n)) ∧
    (∀ s, cell (.vStr s) = s) ∧
    (∀ bs, cell (.vBytes bs) =
      "<bytes b64:" ++ String.mk ((b64encode bs).take 24) ++ "...>") ∧
    (∀ entries, cell (.vMap entries) = jsonDumps (json_safe (.vMap entries))) ∧
    (∀ items, cell (.vList items) = jsonDumps (json_safe (.vList items))) ∧
    cell (.vBytes [0, 1, 255]) = "<bytes b64:AAH/...>" ∧
    json_safe (.vBytes [0, 1, 255]) = .jObj [(("__bytes_b64__"), .jStr ("AAH/"))] ∧
    jsonDumps (json_safe (.vBytes [0, 1, 255])) = "\x7b\"__bytes_b64__\": \"AAH/\"\x7d" :=
  ⟨rfl, fun _ => rfl, fun _ => rfl, fun _ => rfl, fun _ => rfl, fun _ => rfl, fun _ => rfl,
    rfl, rfl, rfl⟩

/-! ### Paging window -/

/-- Whatever the collecting loop of `_read_page` exits with — normal
end, early break, or a caught decode error — the records kept are the
accumulator followed by the stream slice from index `start` (seen from
the loop counter `i`) up to index `stop`. -/
theorem readPageTry_out (start stop : Nat) :
    ∀ (rs : List Record) (err : Bool) (i : Nat) (acc : List Record),
      pageOut (readPageTry start stop rs err i acc) =
        acc ++ (rs.drop (start - i)).take (stop - max start i)
  | [], err, i, acc => by cases err <;> simp [readPageTry, pageOut]
  | r :: rs, err, i, acc => by
      simp only [readPageTry]
      by_cases h1 : stop ≤ i
      · have hz : stop - max start i = 0 := by omega
        simp [if_pos h1, pageOut, hz]
      · rw [if_neg h1]
        by_cases h2 : start ≤ i
        · rw [if_pos h2, readPageTry_out start stop rs err (i + 1) (acc ++ [r])]
          have e1 : start - i = 0 := by omega
          have e2 : start - (i + 1) = 0 := by omega
          have e3 : stop - max start i = stop - max start (i + 1) + 1 := by omega
          rw [e1, e2, e3]
          simp
        · rw [if_neg h2, readPageTry_out start stop rs err (i + 1) acc]
          have e1 : start - i = start - (i + 1) + 1 := by omega
          have e2 : max start i = start := by omega
          have e3 : max start (i + 1) = start := by omega
          rw [e1, e2, e3]
          simp

/-- C1: for every record stream, non-negative page index `i` and page
size `p` in `[1, 5000]`, `_read_page` returns exactly the records at
stream positions `[i*p, i*p + p)` in stream order — the first `i*p`
records are skipped and at most `p` records are collected from there —
so the page always has length at most `p`. -/
theorem read_page_window_C1 (recs : List Record) (err : Bool) (i p : Nat)
    (h1 : 1 ≤ p) (h2 : p ≤ 5000) :
    _read_page recs err i p = (recs.drop (i * p)).take p ∧
    (_read_page recs err i p).length ≤ p := by
  have h : _read_page recs err i p = (recs.drop (i * p)).take p := by
    show pageOut (readPageTry (i * p) (i * p + p) recs err 0 []) = _
    rw [readPageTry_out]
    simp
  exact ⟨h, by rw [h]; exact List.length_take_le _ _⟩

/-- Witness for C1 at a concrete stream: page 1 of size 2 over a
5-record stream is records 2 and 3 (0-based). -/
theorem read_page_window_C1_witness :
    _read_page [[(("f"), Value.vInt 0)], [(("f"), Value.vInt 1)], [(("f"), Value.vInt 2)],
        [(("f"), Value.vInt 3)], [(("f"), Value.vInt 4)]] false 1 2 =
      (([[(("f"), Value.vInt 0)], [(("f"), Value.vInt 1)], [(("f"), Value.vInt 2)],
        [(("f"), Value.vInt 3)], [(("f"), Value.vInt 4)]].drop (1 * 2)).take 2) ∧
    (_read_page [[(("f"), Value.vInt 0)], [(("f"), Value.vInt 1)], [(("f"), Value.vInt 2)],
        [(("f"), Value.vInt 3)], [(("f"), Value.vInt 4)]] false 1 2).length ≤ 2 :=
  read_page_window_C1 _ false 1 2 (by decide) (by decide)

/-! ### Match predicate semantics -/

/-- `charsPref` decides list-prefix. -/
theorem charsPref_iff : ∀ n h : List Char, charsPref n h = true ↔ n <+: h
  | [], h => by simp [charsPref]
  | a :: as, [] => by simp [charsPref]
  | a :: as, b :: bs => by
      simp [charsPref, charsPref_iff as bs, List.cons_prefix_cons]

/-- `charsSub` decides contiguous containment (Python string `in`). -/
theorem charsSub_iff : ∀ n h : List Char, charsSub n h = true ↔ n <:+: h
  | n, [] => by simp [charsSub, charsPref_iff]
  | n, b :: bs => by
      simp [charsSub, charsPref_iff, charsSub_iff n bs, List.infix_cons_iff,
        Bool.or_eq_true]

/-- Looking a key up in a record of decoded values seen as objects. -/
theorem lookupObj_known : ∀ (rec : Record) (f : String),
    lookupObj f (rec.map fun kv => (kv.1, PyObj.known kv.2)) =
      (lookupKV f rec).map PyObj.known
  | [], _ => rfl
  | (k2, v) :: rest, f => by
      by_cases h : k2 = f <;> simp [lookupObj, lookupKV, h, lookupObj_known rest f]

/-- The all-fields loop on decoded values: true exactly when some
non-null value has a lowered string form containing the lowered query. -/
theorem matchLoop_known : ∀ (vs : List Value) (q : List Char),
    (matchLoop q (vs.map PyObj.known) = true ↔
      ∃ v ∈ vs, v ≠ Value.vNull ∧ charsSub q (lowerChars (pyStr v)) = true)
  | [], q => by simp [matchLoop]
  | v :: vs, q => by
      cases v <;>
        simp [matchLoop, pyStrE, matchLoop_known vs q] <;>
        by_cases hc : charsSub q (lowerChars (pyStr _)) = true <;>
        simp_all

/-- C3: in all-fields mode a record matches exactly when at least one
field value is non-null and its lowered string form contains the
lowered query as a contiguous substring; in named-field mode exactly
when that field is present, non-null and its lowered string form
contains the lowered query; a null (or missing) field value never
matches. -/
theorem match_semantics_C3 (rec : Record) (q : String) (f : String) :
    (matchRec rec none q = true ↔
      ∃ kv ∈ rec, kv.2 ≠ Value.vNull ∧
        (lowerChars q <:+: lowerChars (pyStr kv.2))) ∧
    (matchRec rec (some f) q = true ↔
      ∃ v, lookupKV f rec = some v ∧ v ≠ Value.vNull ∧
        (lowerChars q <:+: lowerChars (pyStr v))) := by
  constructor
  · show matchLoop (lowerChars q) _ = true ↔ _
    have hmap : (rec.map fun kv => (kv.1, PyObj.known kv.2)).map Prod.snd =
        (rec.map Prod.snd).map PyObj.known := by
      simp [List.map_map]
    rw [hmap, matchLoop_known]
    constructor
    · rintro ⟨v, hv, hnull, hsub⟩
      obtain ⟨kv, hkv, rfl⟩ := List.mem_map.mp hv
      exact ⟨kv, hkv, hnull, (charsSub_iff _ _).mp hsub⟩
    · rintro ⟨kv, hkv, hnull, hsub⟩
      exact ⟨kv.2, List.mem_map.mpr ⟨kv, hkv, rfl⟩, hnull, (charsSub_iff _ _).mpr hsub⟩
  · show (match lookupObj f (rec.map fun kv => (kv.1, PyObj.known kv.2)) with
      | none => false
      | some (.known .vNull) => false
      | some v =>
          match pyStrE v with
          | .error _ => false
          | .ok s => charsSub (lowerChars q) (lowerChars s)) = true ↔ _
    rw [lookupObj_known]
    cases hl : lookupKV f rec with
    | none => simp
    | some v =>
        cases v <;> simp [pyStrE, charsSub_iff]

/-- C10: `_match` is total at the public interface — on any record of
arbitrary objects, any optional field name and any query it returns a
boolean; an object whose string conversion raises is treated as a
non-match: dropping all such values from a record does not change the
all-fields result, and a named field holding one never matches. -/
theorem match_total_C10 :
    (∀ (rec : ObjRecord) (f : Option String) (q : String),
      _match rec f q = true ∨ _match rec f q = false) ∧
    (∀ (rec : ObjRecord) (q : String),
      _match (rec.filter fun kv => strOk kv.2) none q = _match rec none q) ∧
    (∀ (rec : ObjRecord) (f : String) (v : PyObj) (q : String),
      lookupObj f rec = some v → pyStrE v = .error () →
        _match rec (some f) q = false) := by
  refine ⟨fun rec f q => Bool.eq_false_or_eq_true (_match rec f q), ?_, ?_⟩
  · intro rec q
    show matchLoop (lowerChars q) _ = matchLoop (lowerChars q) _
    have hmap : (rec.filter fun kv => strOk kv.2).map Prod.snd =
        (rec.map Prod.snd).filter strOk := by
      rw [List.filter_map]
      rfl
    rw [hmap]
    generalize rec.map Prod.snd = vs
    induction vs with
    | nil => rfl
    | cons v vs ih =>
        match v with
        | .known .vNull => simpa [List.filter, strOk, pyStrE, matchLoop] using ih
        | .known (.vBool b) => simp [List.filter, strOk, pyStrE, matchLoop, ih]
        | .known (.vInt n) => simp [List.filter, strOk, pyStrE, matchLoop, ih]
        | .known (.vStr s) => simp [List.filter, strOk, pyStrE, matchLoop, ih]
        | .known (.vBytes bs) => simp [List.filter, strOk, pyStrE, matchLoop, ih]
        | .known (.vList l) => simp [List.filter, strOk, pyStrE, matchLoop, ih]
        | .known (.vMap es) => simp [List.filter, strOk, pyStrE, matchLoop, ih]
        | .foreign (some s) => simp [List.filter, strOk, pyStrE, matchLoop, ih]
        | .foreign none => simpa [List.filter, strOk, pyStrE, matchLoop] using ih
  · intro rec f v q hl he
    match v, he with
    | .foreign none, _ =>
        show (match lookupObj f rec with
          | none => false
          | some (.known .vNull) => false
          | some v =>
              match pyStrE v with
              | .error _ => false
              | .ok s => charsSub (lowerChars q) (lowerChars s)) = false
        rw [hl]
        rfl

/-- Witness for the named-field conclusion of C10 at a concrete record: the
one field holds an object whose `str()` raises, and the match is
false. -/
theorem match_total_C10_witness :
    _match [(("x"), PyObj.foreign none)] (some ("x")) ("a") = false :=
  match_total_C10.2.2 [(("x"), PyObj.foreign none)] ("x") (PyObj.foreign none) ("a") rfl rfl

/-! ### Stale search results -/

/-- C5: a batch whose originating file identity differs from the live
file identity of the session is dropped before any mutation; in particular,
after a new file is opened, no batch from a search issued against the
previous file ever reaches the materialized record set of the new session,
which stays exactly as the open left it. -/
theorem stale_search_dropped_C5 (st : AvroState) (oldPath newPath : String)
    (schema : Value) (batch : List Record) (h : oldPath ≠ newPath) :
    (∀ s : AvroState, s.file_path = some newPath → add_batch s oldPath batch = s) ∧
    add_batch (load_avro st newPath schema) oldPath batch =
      load_avro st newPath schema ∧
    (add_batch (load_avro st newPath schema) oldPath batch).current_records = [] := by
  have key : ∀ s : AvroState, s.file_path = some newPath →
      add_batch s oldPath batch = s := by
    intro s hs
    have hne : s.file_path ≠ some oldPath := by
      rw [hs]
      intro hEq
      exact h (Option.some.inj hEq).symm
    unfold add_batch
    rw [if_pos hne]
  exact ⟨key, key _ rfl, by rw [key _ rfl]; rfl⟩

/-- Witness for C5 at concrete paths: a stale batch arriving after a
different file was opened leaves the fresh (empty) record set
untouched. -/
theorem stale_search_dropped_C5_witness :
    (∀ s : AvroState, s.file_path = some ("new.avro") →
      add_batch s ("old.avro") [[(("x"), Value.vInt 7)]] = s) ∧
    add_batch (load_avro {} ("new.avro") Value.vNull) ("old.avro")
        [[(("x"), Value.vInt 7)]] =
      load_avro {} ("new.avro") Value.vNull ∧
    (add_batch (load_avro {} ("new.avro") Value.vNull) ("old.avro")
        [[(("x"), Value.vInt 7)]]).current_records = [] :=
  stale_search_dropped_C5 {} ("old.avro") ("new.avro") Value.vNull
    [[(("x"), Value.vInt 7)]] (by decide)

/-! ### Boundary validation -/

/-- C6: a page-size or max-results input that does not parse as an
integer or parses outside its permitted range (`[1, 5000]` and
`[1, 200000]` respectively) is rejected with a user-facing error and
the session state is returned unchanged — no page size, page index or
record set mutation. -/
theorem validation_C6 (st : AvroState) (psInput qInput fInput mInput : String)
    (hps : parsePyInt psInput = none ∨
      ∃ k, parsePyInt psInput = some k ∧ (k < 1 ∨ 5000 < k))
    (hmr : parsePyInt mInput = none ∨
      ∃ k, parsePyInt mInput = some k ∧ (k < 1 ∨ 200000 < k)) :
    apply_page_size st psInput = (st, false) ∧
    run_search_validate st qInput fInput mInput = (st, none) := by
  constructor
  · unfold apply_page_size
    rcases hps with h | ⟨k, hk, hrange⟩
    · rw [h]
    · rw [hk]
      simp [if_pos hrange]
  · unfold run_search_validate
    cases hfp : st.file_path with
    | none => rfl
    | some path =>
        by_cases hq : pyStrip qInput = ""
        · simp [hq]
        · rcases hmr with h | ⟨k, hk, hrange⟩
          · simp [hq, h]
          · simp [hq, hk, if_pos hrange]

/-- Witness for C6 at concrete inputs: a non-numeric page size and a
zero max-results are both rejected with no state change. -/
theorem validation_C6_witness :
    apply_page_size {} ("abc") = ({}, false) ∧
    run_search_validate {} ("query") ("(all)") ("0") = ({}, none) :=
  validation_C6 {} ("abc") ("query") ("(all)") ("0")
    (Or.inl rfl) (Or.inr ⟨0, rfl, Or.inl (by decide)⟩)

/-! ### Field-name projection -/

/-- A `"fields"` list whose members all carry names projects exactly
those names, in order. -/
theorem filterMap_names : ∀ (fs : List Value) (names : List String),
    fs.map fieldNameOf = names.map some → fs.filterMap fieldNameOf = names
  | [], [] => fun _ => rfl
  | [], n :: ns => by simp
  | f :: fs, [] => by simp
  | f :: fs, n :: ns => by
      intro h
      simp only [List.map_cons, List.cons.injEq] at h
      simp [List.filterMap_cons, h.1, filterMap_names fs ns h.2]

/-- Membership in the concatenation of all record keys. -/
theorem mem_allKeys : ∀ (records : List Record) (k : String),
    k ∈ allKeys records ↔ ∃ r ∈ records, k ∈ r.map Prod.fst
  | [], k => by simp [allKeys]
  | r :: rs, k => by simp [allKeys, mem_allKeys rs k]

/-- C9: a schema whose top level is a record with named fields projects
exactly those field names in declared order; every other schema shape
(non-dict, no `"fields"` key, or a non-list `"fields"`) projects the
empty list; and the fallback over materialized records is the sorted
duplicate-free union of all keys occurring across those records. -/
theorem field_projection_C9 (es : List (String × Value)) (fs : List Value)
    (names : List String)
    (hfields : lookupKV ("fields") es = some (.vList fs))
    (hnames : fs.map fieldNameOf = names.map some) :
    field_names_of_schema (.vMap es) = names ∧
    (∀ schema : Value, (∀ es2, schema ≠ .vMap es2) →
      field_names_of_schema schema = []) ∧
    (∀ es2, lookupKV ("fields") es2 = none →
      field_names_of_schema (.vMap es2) = []) ∧
    (∀ es2 v, lookupKV ("fields") es2 = some v → (∀ l, v ≠ .vList l) →
      field_names_of_schema (.vMap es2) = []) ∧
    (∀ records : List Record,
      List.Sorted (fun a b => a ≤ b) (field_names_from_records records) ∧
      (field_names_from_records records).Nodup ∧
      (∀ k, k ∈ field_names_from_records records ↔
        ∃ r ∈ records, k ∈ r.map Prod.fst)) := by
  refine ⟨?_, ?_, ?_, ?_, ?_⟩
  · show (match lookupKV ("fields") es with
      | some (.vList fs) => fs.filterMap fieldNameOf
      | _ => []) = names
    rw [hfields]
    exact filterMap_names fs names hnames
  · intro schema hne
    cases schema <;> first | rfl | exact absurd rfl (hne _)
  · intro es2 h
    show (match lookupKV ("fields") es2 with
      | some (.vList fs) => fs.filterMap fieldNameOf
      | _ => []) = []
    rw [h]
  · intro es2 v h hne
    show (match lookupKV ("fields") es2 with
      | some (.vList fs) => fs.filterMap fieldNameOf
      | _ => []) = []
    rw [h]
    cases v <;> first | rfl | exact absurd rfl (hne _)
  · intro records
    refine ⟨List.sorted_insertionSort _ _, ?_, ?_⟩
    · exact ((List.perm_insertionSort _ _).nodup_iff).mpr (List.nodup_dedup _)
    · intro k
      rw [field_names_from_records, (List.perm_insertionSort _ _).mem_iff,
        List.mem_dedup, mem_allKeys]

/-- Witness for C9 at a concrete record schema with two named fields:
the projection is those names in declared order. -/
theorem field_projection_C9_witness :
    field_names_of_schema
      (.vMap [(("type"), .vStr ("record")),
        (("fields"), .vList [.vMap [(("name"), .vStr ("b"))],
          .vMap [(("name"), .vStr ("a"))]])]) = [("b"), ("a")] :=
  (field_projection_C9
    [(("type"), .vStr ("record")),
      (("fields"), .vList [.vMap [(("name"), .vStr ("b"))],
        .vMap [(("name"), .vStr ("a"))]])]
    [.vMap [(("name"), .vStr ("b"))], .vMap [(("name"), .vStr ("a"))]]
    [("b"), ("a")] rfl rfl).1

/-! ### Search loop invariant -/

/-- Delivered counts add over concatenation of batch lists. -/
theorem totalDelivered_append (xs ys : List Batch) :
    totalDelivered (xs ++ ys) = totalDelivered xs + totalDelivered ys := by
  simp [totalDelivered]

/-- The scan-loop invariant: entered with `found < max_results`, the
loop (1) holds, across flushed batches plus the pending batch, exactly
the capped number of further matches, (2) examines exactly up to the
capping match or the whole stream, (3) breaks exactly when the stream
holds enough matches to reach the cap, and (4) flushes only non-final
batches. -/
theorem scanLoop_spec (f : Option String) (q : String) (m : Nat) :
    ∀ (rs : List Record) (checked found : Nat) (batch : List Record),
      found < m →
      totalDelivered (scanLoop f q m rs checked found batch).1 +
          (scanLoop f q m rs checked found batch).2.1.length =
        batch.length + min (m - found) (rs.countP (fun r => matchRec r f q)) ∧
      (scanLoop f q m rs checked found batch).2.2.1 =
        checked + stopPoint (fun r => matchRec r f q) (m - found) rs ∧
      ((scanLoop f q m rs checked found batch).2.2.2 = true ↔
        m - found ≤ rs.countP (fun r => matchRec r f q)) ∧
      (∀ b ∈ (scanLoop f q m rs checked found batch).1, b.final = false)
  | [], checked, found, batch => by
      intro hfm
      refine ⟨?_, ?_, ?_, ?_⟩
      · simp [scanLoop, totalDelivered]
      · simp [scanLoop, stopPoint]
      · simp [scanLoop]
        omega
      · simp [scanLoop]
  | r :: rs, checked, found, batch => by
      intro hfm
      cases hm : matchRec r f q with
      | false =>
          have IH := scanLoop_spec f q m rs (checked + 1) found batch hfm
          simp only [scanLoop, hm, Bool.false_eq_true, if_false,
            List.countP_cons, stopPoint, if_neg (by simp [hm] : ¬matchRec r f q = true)]
          rcases IH with ⟨IH1, IH2, IH3, IH4⟩
          refine ⟨by simp [hm]; omega, by omega, by rw [IH3]; simp [hm], IH4⟩
      | true =>
          by_cases hflush : 50 ≤ batch.length + 1
          · by_cases hcap : m ≤ found + 1
            · simp only [scanLoop, hm, if_true, List.length_append, List.length_cons,
                List.length_nil, Nat.zero_add, if_pos hflush, if_pos hcap]
              refine ⟨?_, ?_, ?_, ?_⟩
              · simp [totalDelivered, List.countP_cons, hm]
                omega
              · simp [stopPoint, hm]
                rw [if_pos (by omega : m ≤ 1 + found)]
              · simp [List.countP_cons, hm]
                omega
              · simp
            · have hfm2 : found + 1 < m := by omega
              have IH := scanLoop_spec f q m rs (checked + 1) (found + 1) [] hfm2
              rcases hout : scanLoop f q m rs (checked + 1) (found + 1) [] with
                ⟨bs, leftover, c, broke⟩
              rw [hout] at IH
              dsimp only at IH
              rcases IH with ⟨IH1, IH2, IH3, IH4⟩
              simp only [scanLoop, hm, if_true, List.length_append, List.length_cons,
                List.length_nil, Nat.zero_add, if_pos hflush, if_neg hcap, hout]
              refine ⟨?_, ?_, ?_, ?_⟩
              · simp only [totalDelivered, List.map_cons, List.sum_cons,
                  List.length_append, List.length_cons, List.length_nil] at IH1 ⊢
                simp [List.countP_cons, hm]
                have e : m - (found + 1) = m - found - 1 := by omega
                rw [e] at IH1
                omega
              · simp only [stopPoint, hm, if_true, if_neg (by omega : ¬m - found ≤ 1)]
                have e : m - (found + 1) = m - found - 1 := by omega
                rw [e] at IH2
                omega
              · rw [IH3]
                simp [List.countP_cons, hm]
                omega
              · intro b hb
                rcases List.mem_cons.mp hb with h | h
                · rw [h]
                · exact IH4 b h
          · by_cases hcap : m ≤ found + 1
            · simp only [scanLoop, hm, if_true, List.length_append, List.length_cons,
                List.length_nil, Nat.zero_add, if_neg hflush, if_pos hcap]
              refine ⟨?_, ?_, ?_, ?_⟩
              · simp [totalDelivered, List.countP_cons, hm]
                omega
              · simp [stopPoint, hm]
                rw [if_pos (by omega : m ≤ 1 + found)]
              · simp [List.countP_cons, hm]
                omega
              · simp
            · have hfm2 : found + 1 < m := by omega
              have IH := scanLoop_spec f q m rs (checked + 1) (found + 1) (batch ++ [r]) hfm2
              simp only [scanLoop, hm, if_true, List.length_append, List.length_cons,
                List.length_nil, Nat.zero_add, if_neg hflush, if_neg hcap]
              rcases IH with ⟨IH1, IH2, IH3, IH4⟩
              refine ⟨?_, ?_, ?_, ?_⟩
              · simp only [List.length_append, List.length_cons, List.length_nil,
                  Nat.zero_add] at IH1
                simp [List.countP_cons, hm]
                have e : m - (found + 1) = m - found - 1 := by omega
                rw [e] at IH1
                omega
              · simp only [stopPoint, hm, if_true, if_neg (by omega : ¬m - found ≤ 1)]
                have e : m - (found + 1) = m - found - 1 := by omega
                rw [e] at IH2
                omega
              · rw [IH3]
                simp [List.countP_cons, hm]
                omega
              · exact IH4

/-- The capped scan never examines more records than the stream holds. -/
theorem stopPoint_le_length (p : Record → Bool) : ∀ (k : Nat) (rs : List Record),
    stopPoint p k rs ≤ rs.length
  | _, [] => by simp [stopPoint]
  | k, r :: rs => by
      simp only [stopPoint, List.length_cons]
      by_cases hp : p r = true
      · rw [if_pos hp]
        by_cases hk : k ≤ 1
        · rw [if_pos hk]
          omega
        · rw [if_neg hk]
          have := stopPoint_le_length p (k - 1) rs
          omega
      · rw [if_neg hp]
        have := stopPoint_le_length p k rs
        omega

/-- When the stream holds fewer than `k` matches, the capped scan
examines it all. -/
theorem stopPoint_eq_length (p : Record → Bool) : ∀ (k : Nat) (rs : List Record),
    rs.countP p < k → stopPoint p k rs = rs.length
  | _, [], _ => by simp [stopPoint]
  | k, r :: rs, h => by
      simp only [List.countP_cons] at h
      simp only [stopPoint, List.length_cons]
      by_cases hp : p r = true
      · rw [if_pos hp, if_neg (by simp [hp] at h; omega : ¬k ≤ 1),
          stopPoint_eq_length p (k - 1) rs (by simp [hp] at h; omega)]
        omega
      · rw [if_neg hp, stopPoint_eq_length p k rs (by simp [hp] at h; omega)]
        omega

/-- When the stream holds at least `k ≥ 1` matches, the examined prefix
holds exactly `k` matches. -/
theorem countP_take_stopPoint (p : Record → Bool) : ∀ (k : Nat) (rs : List Record),
    1 ≤ k → k ≤ rs.countP p → (rs.take (stopPoint p k rs)).countP p = k
  | k, [], hk, h => by simp at h; omega
  | k, r :: rs, hk, h => by
      simp only [List.countP_cons] at h
      simp only [stopPoint]
      by_cases hp : p r = true
      · rw [if_pos hp]
        by_cases hk1 : k ≤ 1
        · rw [if_pos hk1]
          simp [List.countP_cons, hp]
          omega
        · rw [if_neg hk1, Nat.add_comm 1 (stopPoint p (k - 1) rs)]
          have := countP_take_stopPoint p (k - 1) rs (by omega)
            (by simp [hp] at h; omega)
          simp [List.take_succ_cons, List.countP_cons, hp]
          omega
      · rw [if_neg hp, Nat.add_comm 1 (stopPoint p k rs)]
        have := countP_take_stopPoint p k rs hk (by simp [hp] at h; omega)
        simp [List.take_succ_cons, List.countP_cons, hp]
        omega

/-- When the stream holds at least `k ≥ 1` matches, the capped scan
stops exactly on a match (the `k`-th one). -/
theorem stopPoint_last_match (p : Record → Bool) : ∀ (k : Nat) (rs : List Record),
    1 ≤ k → k ≤ rs.countP p →
    ∃ j, stopPoint p k rs = j + 1 ∧ p (rs.getD j []) = true
  | k, [], hk, h => by simp at h; omega
  | k, r :: rs, hk, h => by
      simp only [List.countP_cons] at h
      simp only [stopPoint]
      by_cases hp : p r = true
      · rw [if_pos hp]
        by_cases hk1 : k ≤ 1
        · exact ⟨0, by rw [if_pos hk1], by simpa using hp⟩
        · rw [if_neg hk1]
          obtain ⟨j, hj, hpj⟩ := stopPoint_last_match p (k - 1) rs (by omega)
            (by simp [hp] at h; omega)
          exact ⟨j + 1, by omega, by simpa using hpj⟩
      · rw [if_neg hp]
        obtain ⟨j, hj, hpj⟩ := stopPoint_last_match p k rs hk
          (by simp [hp] at h; omega)
        exact ⟨j + 1, by omega, by simpa using hpj⟩

/-- C2: for every search with cap `m` in `[1, 200000]`, the total number
of matched records delivered across all batches never exceeds `m`
(whatever way the scan ends); on an error-free run it is exactly the
number of matches capped at `m`, the final batch reports exactly
`stopPoint` records examined, the scan never examines more records than
the stream holds, it examines the whole stream only when fewer than `m`
records match, and when at least `m` match the examined prefix contains
exactly `m` matches and ends at the `m`-th match. -/
theorem search_cap_C2 (recs : List Record) (err : Bool) (f : Option String)
    (q : String) (m : Nat) (h1 : 1 ≤ m) (h2 : m ≤ 200000) :
    totalDelivered (run_search_worker recs err f q m) ≤ m ∧
    totalDelivered (run_search_worker recs false f q m) =
      min m (recs.countP (fun r => matchRec r f q)) ∧
    (run_search_worker recs false f q m).getLast? =
      some ⟨[], stopPoint (fun r => matchRec r f q) m recs, true⟩ ∧
    stopPoint (fun r => matchRec r f q) m recs ≤ recs.length ∧
    (recs.countP (fun r => matchRec r f q) < m →
      stopPoint (fun r => matchRec r f q) m recs = recs.length) ∧
    (m ≤ recs.countP (fun r => matchRec r f q) →
      (recs.take (stopPoint (fun r => matchRec r f q) m recs)).countP
          (fun r => matchRec r f q) = m ∧
      ∃ j, stopPoint (fun r => matchRec r f q) m recs = j + 1 ∧
        matchRec (recs.getD j []) f q = true) := by
  have spec := scanLoop_spec f q m recs 0 0 [] (by omega)
  rcases hout : scanLoop f q m recs 0 0 [] with ⟨bs, leftover, c, broke⟩
  rw [hout] at spec
  dsimp only at spec
  rcases spec with ⟨S1, S2, S3, S4⟩
  rw [Nat.sub_zero] at S1 S2 S3
  rw [Nat.zero_add] at S2
  simp only [List.length_nil, Nat.zero_add] at S1
  have hfull : run_search_worker recs false f q m =
      (bs ++ (if leftover.isEmpty then [] else [⟨leftover, c, false⟩])) ++
        [⟨[], c, true⟩] := by
    unfold run_search_worker
    rw [hout]
    rfl
  have hdel : totalDelivered ((bs ++ (if leftover.isEmpty then [] else
      [⟨leftover, c, false⟩])) ++ [⟨[], c, true⟩]) =
      totalDelivered bs + leftover.length := by
    rw [totalDelivered_append, totalDelivered_append]
    by_cases hl : leftover.isEmpty
    · rw [if_pos hl]
      simp [totalDelivered, List.isEmpty_iff.mp hl]
    · rw [if_neg hl]
      simp [totalDelivered]
  refine ⟨?_, ?_, ?_, stopPoint_le_length _ m recs, stopPoint_eq_length _ m recs,
    fun hge => ⟨countP_take_stopPoint _ m recs h1 hge,
      stopPoint_last_match _ m recs h1 hge⟩⟩
  · unfold run_search_worker
    rw [hout]
    dsimp only
    by_cases he : (err && !broke) = true
    · rw [if_pos he]
      omega
    · rw [if_neg he]
      rw [hdel]
      omega
  · rw [hfull, hdel]
    omega
  · rw [hfull, S2]
    exact List.getLast?_concat _

/-- Witness for C2 at a concrete stream: three matching records with cap
2 deliver exactly 2 matches. -/
theorem search_cap_C2_witness :
    totalDelivered (run_search_worker [[(("a"), Value.vStr ("xa"))],
      [(("a"), Value.vStr ("no"))], [(("a"), Value.vStr ("xa"))],
      [(("a"), Value.vStr ("xa"))]] false none ("xa") 2) ≤ 2 ∧
    totalDelivered (run_search_worker [[(("a"), Value.vStr ("xa"))],
      [(("a"), Value.vStr ("no"))], [(("a"), Value.vStr ("xa"))],
      [(("a"), Value.vStr ("xa"))]] false none ("xa") 2) =
      min 2 (List.countP (fun r => matchRec r none ("xa"))
        [[(("a"), Value.vStr ("xa"))], [(("a"), Value.vStr ("no"))],
          [(("a"), Value.vStr ("xa"))], [(("a"), Value.vStr ("xa"))]]) :=
  ⟨(search_cap_C2 [[(("a"), Value.vStr ("xa"))], [(("a"), Value.vStr ("no"))],
      [(("a"), Value.vStr ("xa"))], [(("a"), Value.vStr ("xa"))]] false none ("xa") 2
      (by decide) (by decide)).1,
    (search_cap_C2 [[(("a"), Value.vStr ("xa"))], [(("a"), Value.vStr ("no"))],
      [(("a"), Value.vStr ("xa"))], [(("a"), Value.vStr ("xa"))]] false none ("xa") 2
      (by decide) (by decide)).2.1⟩

/-! ### Decode errors mid-stream (C4) -/

/-- Counterexample to C4 as stated: one record matches the query ("a"
occurs in "abc") and is sitting in the pending batch of the worker when the
stream raises a decode error (the loop never broke at the cap of 500),
yet the worker delivers nothing at all — the buffered match is not
emitted and no final batch with `final = true` follows; the `except` of
lines 401-404 returns after reporting an error instead. -/
theorem decode_error_C4_counterexample :
    matchRec [(("a"), Value.vStr ("abc"))] none ("a") = true ∧
    run_search_worker [[(("a"), Value.vStr ("abc"))]] true none ("a") 500 = [] := by
  constructor
  · rfl
  · rfl

/-- C4 (amended): a decode error raised mid-stream during paging is
treated as end of available data — the partial page collected so far is
returned unchanged, exactly as on an error-free stream.  During search,
when the scan loop ends by exhaustion without a decode error or by
reaching the cap, any remaining buffered matches are emitted and one
final empty batch with `final = true` carries the last examined-count;
but when a decode error interrupts the scan before the cap is reached,
the search is aborted with an error report: only the batches flushed
inside the loop (all non-final) are delivered, and no final batch is
emitted. -/
theorem decode_error_C4_amended (recs : List Record) (i psz : Nat) (err : Bool)
    (f : Option String) (q : String) (m : Nat) (hm : 1 ≤ m) :
    _read_page recs true i psz = _read_page recs false i psz ∧
    ((err = false ∨ m ≤ recs.countP (fun r => matchRec r f q)) →
      ∃ bs c, run_search_worker recs err f q m = bs ++ [⟨[], c, true⟩] ∧
        (∀ b ∈ bs, b.final = false) ∧
        totalDelivered bs = min m (recs.countP (fun r => matchRec r f q)) ∧
        c = stopPoint (fun r => matchRec r f q) m recs) ∧
    ((err = true ∧ recs.countP (fun r => matchRec r f q) < m) →
      ∀ b ∈ run_search_worker recs err f q m, b.final = false) := by
  have spec := scanLoop_spec f q m recs 0 0 [] (by omega)
  rcases hout : scanLoop f q m recs 0 0 [] with ⟨bs, leftover, c, broke⟩
  rw [hout] at spec
  dsimp only at spec
  rcases spec with ⟨S1, S2, S3, S4⟩
  rw [Nat.sub_zero] at S1 S2 S3
  rw [Nat.zero_add] at S2
  simp only [List.length_nil, Nat.zero_add] at S1
  refine ⟨?_, ?_, ?_⟩
  · show pageOut (readPageTry (i * psz) (i * psz + psz) recs true 0 []) =
      pageOut (readPageTry (i * psz) (i * psz + psz) recs false 0 [])
    rw [readPageTry_out, readPageTry_out]
  · intro hgood
    have hbr : (err && !broke) = false := by
      rcases hgood with he | hc
      · rw [he]
        rfl
      · rw [S3.mpr hc]
        simp
    refine ⟨bs ++ (if leftover.isEmpty then [] else [⟨leftover, c, false⟩]), c,
      ?_, ?_, ?_, S2⟩
    · unfold run_search_worker
      rw [hout]
      dsimp only
      simp [hbr]
    · intro b hb
      rcases List.mem_append.mp hb with h | h
      · exact S4 b h
      · by_cases hl : leftover.isEmpty
        · rw [if_pos hl] at h
          simp at h
        · rw [if_neg hl] at h
          simp at h
          rw [h]
    · rw [totalDelivered_append]
      by_cases hl : leftover.isEmpty
      · rw [if_pos hl]
        rw [List.isEmpty_iff.mp hl] at S1
        simp only [totalDelivered, List.map_nil, List.sum_nil, List.length_nil] at S1 ⊢
        omega
      · rw [if_neg hl]
        simp only [totalDelivered, List.map_cons, List.map_nil, List.sum_cons,
          List.sum_nil] at S1 ⊢
        omega
  · rintro ⟨he, hc⟩
    have hbroke : broke = false := by
      cases hbk : broke
      · rfl
      · exact absurd (S3.mp hbk) (by omega)
    have hrun : run_search_worker recs err f q m = bs := by
      unfold run_search_worker
      rw [hout]
      dsimp only
      rw [he, hbroke]
      rfl
    rw [hrun]
    exact S4

/-- Witness for C4 (amended) on a concrete error-free run: the output is
some non-final batches followed by one final empty batch, carrying the
examined-count, with exactly the capped number of matches. -/
theorem decode_error_C4_amended_witness :
    _read_page [[(("a"), Value.vStr ("xy"))]] true 0 1 =
      _read_page [[(("a"), Value.vStr ("xy"))]] false 0 1 ∧
    ∃ bs c, run_search_worker [[(("a"), Value.vStr ("xy"))]] false none ("x") 3 =
        bs ++ [⟨[], c, true⟩] ∧
      (∀ b ∈ bs, b.final = false) ∧
      totalDelivered bs = min 3 (List.countP (fun r => matchRec r none ("x"))
        [[(("a"), Value.vStr ("xy"))]]) ∧
      c = stopPoint (fun r => matchRec r none ("x")) 3 [[(("a"), Value.vStr ("xy"))]] :=
  ⟨(decode_error_C4_amended [[(("a"), Value.vStr ("xy"))]] 0 1 false none ("x") 3
      (by decide)).1,
    (decode_error_C4_amended [[(("a"), Value.vStr ("xy"))]] 0 1 false none ("x") 3
      (by decide)).2.1 (Or.inl rfl)⟩

end AvroViewer
